import Mathlib

/-!
A formal model of the request pipeline of a small HTTP/1.1 server written in
Rust (request parser, route matching, path stripping, the echo and user-agent
handlers, and the bounded copy loop used for uploads), together with theorems
about its behaviour.

Modelling conventions:
* Rust `String` values are Lean `String`s; `OsStr`/`PathBuf` contents are byte
  lists (`List Nat`), obtained from strings by UTF-8 encoding.
* Machine integers (`usize`) are `Nat` with explicit `2 ^ 64` bounds where the
  source can overflow or reject out-of-range input.
* Fallible Rust code returns `Except`/`Option`; a Rust panic (e.g. `unwrap` on
  an `Err`, or an out-of-bounds `split_at`) is modelled as an explicit error
  value (`Except.error` / `none`).
* The byte stream feeding the parser is modelled as a list of characters (the
  parser in the source is line- and UTF-8-text oriented via `read_line`).
-/

set_option maxHeartbeats 1000000

namespace HttpSrv

/-- HTTP verbs as in `src/lib.rs` / `main.rs` (`HttpVerb`). -/
inductive HttpVerb where
  | Unknown
  | Any
  | Get
  | Post
  deriving DecidableEq

/-- Status codes as in `src/lib.rs` (`StatusCode`). -/
inductive StatusCode where
  | HttpOk
  | Created
  | NotFound
  | Forbidden
  | InternalServerError
  deriving DecidableEq

/-- The `(numeric code, reason phrase)` pair used by `Response::write_header`
in `src/response.rs`. -/
def statusNumber : StatusCode → Nat × String
  | .HttpOk => (200, "OK")
  | .Created => (201, "Created")
  | .NotFound => (404, "Not Found")
  | .Forbidden => (403, "Forbidden")
  | .InternalServerError => (500, "Internal Server Error")

/-- A header name/value pair (`HeaderField` in `src/lib.rs`). -/
structure HeaderField where
  name : String
  value : String
  deriving DecidableEq

/-- A request/response body (`Payload` in `src/lib.rs`): either in-memory byte
blocks or a handle on a byte stream, here the stream's remaining bytes. -/
inductive Payload where
  | Simple (blocks : List (List Nat))
  | ReadStream (stream : List Nat)
  deriving DecidableEq

/-- A parsed request (`Request` in `src/request.rs`); `path` holds the bytes of
the `PathBuf`'s `OsStr`. -/
structure Request where
  verb : HttpVerb
  path : List Nat
  headers : List HeaderField
  body : Option Payload
  deriving DecidableEq

/-- An outgoing response (`Response` in `src/response.rs`). -/
structure Response where
  code : StatusCode
  headers : List HeaderField
  payload : Option Payload
  deriving DecidableEq

/-- Shared configuration (`Configuration` in `src/config.rs`). -/
structure Configuration where
  root_dir : Option (List Nat)
  deriving DecidableEq

/-- The uniform handler shape (`Handler` in `src/lib.rs`), with the `Result`
return modelled as `Except`. -/
def Handler : Type := Configuration → Request → Except String Response

/-- A route's target (`RouteTarget` in `src/route.rs`). -/
inductive RouteTarget where
  | Static (code : StatusCode)
  | Dynamic (handler : Handler)

/-- A route table entry (`Route` in `src/route.rs`): verb, path (bytes of the
declared `PathBuf`), exact-vs-prefix flag, and target. -/
structure Route where
  verb : HttpVerb
  path : List Nat
  exact : Bool
  target : RouteTarget

/-- UTF-8 encoding of one character, as Rust's `str::as_bytes` produces it. -/
def utf8Bytes (c : Char) : List Nat :=
  let n := c.toNat
  if n < 128 then [n]
  else if n < 2048 then [192 + n / 64, 128 + n % 64]
  else if n < 65536 then [224 + n / 4096, 128 + n / 64 % 64, 128 + n % 64]
  else [240 + n / 262144, 128 + n / 4096 % 64, 128 + n / 64 % 64, 128 + n % 64]

/-- UTF-8 bytes of a character list. -/
def strBytes (cs : List Char) : List Nat := cs.flatMap utf8Bytes

/-- UTF-8 bytes of a string literal (how a Rust `&str` becomes `OsStr` bytes). -/
def bytesOf (s : String) : List Nat := strBytes s.toList

/-- One component of a Unix path, mirroring `std::path::Component`
(no `Prefix` component exists on Unix). -/
inductive PathComponent where
  | rootDir
  | curDir
  | parentDir
  | normal (seg : List Nat)
  deriving DecidableEq

/-- Split a byte list on `/` (byte 47), keeping empty segments. -/
def splitOnSlashAux : List Nat → List Nat → List (List Nat)
  | [], acc => [acc.reverse]
  | b :: bs, acc =>
    if b = 47 then acc.reverse :: splitOnSlashAux bs []
    else splitOnSlashAux bs (b :: acc)

/-- Split a byte list on `/` (byte 47). -/
def splitOnSlash (p : List Nat) : List (List Nat) := splitOnSlashAux p []

/-- Whether a raw segment survives `std::path` component iteration: empty
segments and bare `.` segments are dropped. -/
def keepSeg (seg : List Nat) : Bool := !(seg.isEmpty) && !(seg == [46])

/-- A surviving segment as a component: `..` is `ParentDir` (byte 46 is `.`). -/
def segToComponent (seg : List Nat) : PathComponent :=
  if seg = [46, 46] then .parentDir else .normal seg

/-- The component sequence of a path's bytes, mirroring
`std::path::Path::components()` on Unix: a leading `/` yields `RootDir`; a
relative path that is `.` or starts with `./` yields a leading `CurDir`;
empty and `.` segments are otherwise dropped and `..` is kept. -/
def pathComponents (p : List Nat) : List PathComponent :=
  let comps := ((splitOnSlash p).filter keepSeg).map segToComponent
  if p.head? = some 47 then PathComponent.rootDir :: comps
  else if p = [46] ∨ p.take 2 = [46, 47] then PathComponent.curDir :: comps
  else comps

/-- Rust `Path`/`PathBuf` equality (`PartialEq`), which compares component
sequences, not raw bytes. -/
def pathEq (a b : List Nat) : Bool := pathComponents a == pathComponents b

/-- Rust `Path::starts_with`: the base's components are a component-wise
prefix of the path's components. -/
def pathStartsWith (p base : List Nat) : Bool :=
  (pathComponents base).isPrefixOf (pathComponents p)

/-- `Route::matches` from `src/route.rs` (lines 54-67): the verb condition is
`self.verb == HttpVerb::Any || request.verb() == &self.verb`; the path
condition is `PathBuf` equality for exact routes and `Path::starts_with` for
prefix routes; on success it returns `self.path.as_os_str().len()`. -/
def Route.matches (r : Route) (q : Request) : Option Nat :=
  if ((r.verb == HttpVerb.Any) || (q.verb == r.verb))
      && (if r.exact then pathEq r.path q.path else pathStartsWith q.path r.path)
  then some r.path.length
  else none

/-- `Route::matches` from `main.rs` (lines 163-176), whose verb condition is
`request.verb == HttpVerb::Any || request.verb == self.verb` — it tests the
request's verb against `Any`, not the route's. -/
def mainMatches (r : Route) (q : Request) : Option Nat :=
  if ((q.verb == HttpVerb.Any) || (q.verb == r.verb))
      && (if r.exact then pathEq r.path q.path else pathStartsWith q.path r.path)
  then some r.path.length
  else none

/-- First-match lookup in a header list (the loop of `Request::get_header`). -/
def findHeader : List HeaderField → String → Option String
  | [], _ => none
  | h :: t, needle => if h.name = needle then some h.value else findHeader t needle

/-- `Request::get_header` from `src/request.rs`. -/
def Request.get_header (q : Request) (needle : String) : Option String :=
  findHeader q.headers needle

/-- Rust `str::parse::<usize>()`: optional leading `+`, then one or more ASCII
digits, rejecting values above `usize::MAX = 2 ^ 64 - 1`. -/
def parseUsize (s : String) : Option Nat :=
  let ds := match s.toList with
    | '+' :: tl => tl
    | l => l
  if !(ds.isEmpty) && ds.all Char.isDigit then
    let v := ds.foldl (fun a c => a * 10 + (c.toNat - 48)) 0
    if v < 2 ^ 64 then some v else none
  else none

/-- `Request::content_length` from `src/request.rs` (lines 55-58): it maps the
header value through `value.parse::<usize>().unwrap()`; the `unwrap` panic on
a failed parse is modelled as `Except.error`. -/
def Request.content_length (q : Request) : Except String (Option Nat) :=
  match Request.get_header q "Content-Length" with
  | none => Except.ok none
  | some v =>
    match parseUsize v with
    | some n => Except.ok (some n)
    | none => Except.error "panicked: called unwrap on an Err value from str::parse"

/-- `Request::strip_path_prefix` from `src/request.rs` (lines 60-68): it calls
`split_at(pref_length)` on the path's bytes and keeps the tail; `split_at`
panics when the index exceeds the length, modelled as `none`. -/
def Request.strip_path_pref (q : Request) (n : Nat) : Option Request :=
  if n ≤ q.path.length then
    some { verb := q.verb, path := q.path.drop n, headers := q.headers, body := q.body }
  else none

/-- `Request::wants_gzip_encoding` is called by `handle_echo` in
`src/handlers.rs` but is absent from `src/request.rs`.
Modelled from the spec: a content-coding is applied "only when negotiated via
a request header naming the encoding"; we model negotiation as an
`Accept-Encoding` header whose value mentions `gzip`. -/
def negotiates_gzip (headers : List HeaderField) : Bool :=
  match findHeader headers "Accept-Encoding" with
  | some v => hasSubseq v.toList
  | none => false
where
  /-- whether `gzip` occurs as a contiguous substring -/
  hasSubseq : List Char → Bool
  | [] => "gzip".toList.isEmpty
  | c :: t => "gzip".toList.isPrefixOf (c :: t) || hasSubseq t

/-- Modelled from the spec (see `negotiates_gzip`): the request-side accessor
used by `handle_echo`. -/
def Request.wants_gzip_encoding (q : Request) : Bool := negotiates_gzip q.headers

/-- `handle_echo` from `src/handlers.rs` (lines 15-38). The gzip transform
performed by the external `async_compression` crate is abstracted as the
function argument `gzip`; the body is the (possibly encoded) path bytes, a
`Content-Type: text/plain` header is always added and a `Content-Length`
header only when the body is non-empty. -/
def handle_echo (gzip : List Nat → List Nat) (_config : Configuration) (q : Request) :
    Except String Response :=
  let raw_text := q.path
  let text := if Request.wants_gzip_encoding q then gzip raw_text else raw_text
  let tlen := text.length
  Except.ok
    { code := StatusCode.HttpOk
      headers := [⟨"Content-Type", "text/plain"⟩]
        ++ (if tlen > 0 then [⟨"Content-Length", toString tlen⟩] else [])
      payload := some (Payload.Simple [text]) }

/-- `handle_user_agent` from `src/handlers.rs` (lines 40-58): echoes the
`User-Agent` header value (UTF-8 bytes; `agent.len()` is the byte length),
adding `Content-Length` only when non-empty; when the header is absent it
returns the `build_error` result, an `Err`. -/
def handle_user_agent (_config : Configuration) (q : Request) : Except String Response :=
  match Request.get_header q "User-Agent" with
  | some agent =>
    let bytes := strBytes agent.toList
    Except.ok
      { code := StatusCode.HttpOk
        headers := [⟨"Content-Type", "text/plain"⟩]
          ++ (if bytes.length > 0 then [⟨"Content-Length", toString bytes.length⟩] else [])
        payload := some (Payload.Simple [bytes]) }
  | none => Except.error "Expected User-Agent header, but not found"

/-- `RouteTarget::invoke` from `src/route.rs`: a static target yields
`Response::from_status`, a dynamic one calls the handler. -/
def RouteTarget.invoke (t : RouteTarget) (config : Configuration) (q : Request) :
    Except String Response :=
  match t with
  | .Static code => Except.ok { code := code, headers := [], payload := none }
  | .Dynamic handler => handler config q

/-- The route-scanning loop of `handle_connection` in `main.rs` (lines
398-419): the first route whose `matches` succeeds is selected together with
the matched length, and the loop breaks. -/
def routeRequest : List Route → Request → Option (Route × Nat)
  | [], _ => none
  | r :: rs, q =>
    match Route.matches r q with
    | some n => some (r, n)
    | none => routeRequest rs q

/-- Observable outcome of dispatching one parsed request, following
`handle_connection`: no matching route writes nothing; a panic in
`strip_path_prefix` kills the task; a handler `Err` propagates (the
connection closes with no response); otherwise the handler's response is
written. -/
inductive ServeOutcome where
  | noMatch
  | panicked
  | handlerError (e : String)
  | responded (resp : Response)
  deriving DecidableEq

/-- The dispatch phase of `handle_connection` (`main.rs` lines 398-420) on an
already-parsed request. -/
def serveParsed (routes : List Route) (config : Configuration) (q : Request) : ServeOutcome :=
  match routeRequest routes q with
  | none => .noMatch
  | some (r, n) =>
    match Request.strip_path_pref q n with
    | none => .panicked
    | some q2 =>
      match RouteTarget.invoke r.target config q2 with
      | .error e => .handlerError e
      | .ok resp => .responded resp

/-- One `read_line` step on a character stream: consume up to and including
the first newline (or everything, at end of stream); returns the line and the
remaining stream. A `([], _)` first component means zero bytes were read. -/
def readLine : List Char → List Char × List Char
  | [] => ([], [])
  | c :: cs =>
    if c = '\n' then ([c], cs)
    else
      let p := readLine cs
      (c :: p.1, p.2)

/-- Rust `str::split_whitespace` on a character list: maximal non-whitespace
runs, with empty tokens dropped. -/
def wsSplitAux : List Char → List Char → List (List Char)
  | [], acc => if acc.isEmpty then [] else [acc.reverse]
  | c :: cs, acc =>
    if c.isWhitespace then
      if acc.isEmpty then wsSplitAux cs [] else acc.reverse :: wsSplitAux cs []
    else wsSplitAux cs (c :: acc)

/-- Rust `str::split_whitespace`, collected. -/
def wsSplit (l : List Char) : List (List Char) := wsSplitAux l []

/-- Rust `str::split_once(": ")`: split at the first occurrence of the
two-character separator. -/
def splitOnceColonSpace : List Char → Option (List Char × List Char)
  | [] => none
  | ':' :: ' ' :: rest => some ([], rest)
  | c :: rest =>
    match splitOnceColonSpace rest with
    | some (n, v) => some (c :: n, v)
    | none => none

/-- Rust `str::trim_end`: drop trailing whitespace. -/
def trimEnd (l : List Char) : List Char :=
  (l.reverse.dropWhile Char.isWhitespace).reverse

/-- The failure modes of `parse_query` in `main.rs` (lines 239-289), as the
distinct `build_error` messages: a request line without a second token, an
end of stream before the blank line, and a malformed header line. -/
inductive ParseError where
  | invalidMessageLine
  | unexpectedEof
  | invalidHeader (line : List Char)
  deriving DecidableEq

/-- The verb mapping of `parse_query`: `GET` and `POST` map to their verbs and
anything else (including a missing token) to `Unknown`. -/
def verbOf : Option (List Char) → HttpVerb
  | some t =>
    if t = "GET".toList then .Get
    else if t = "POST".toList then .Post
    else .Unknown
  | none => .Unknown

/-- Fuel-indexed header loop of `parse_query`: read a line; zero bytes read is
the EOF error, the exact line `\r\n` ends the loop, otherwise the line
(trailing whitespace trimmed) must split once on `": "` into a header that is
appended, and the loop repeats. Each non-EOF iteration consumes at least one
character, so `input.length + 1` fuel always suffices. -/
def parseHeadersF : Nat → List Char → Except ParseError (List HeaderField × List Char)
  | 0, _ => Except.error ParseError.unexpectedEof
  | fuel + 1, input =>
    let line := (readLine input).1
    let rest := (readLine input).2
    if line = [] then Except.error ParseError.unexpectedEof
    else if line = ['\r', '\n'] then Except.ok ([], rest)
    else
      match splitOnceColonSpace (trimEnd line) with
      | some (n, v) =>
        (parseHeadersF fuel rest).map fun hb => (⟨String.mk n, String.mk v⟩ :: hb.1, hb.2)
      | none => Except.error (ParseError.invalidHeader (trimEnd line))

/-- The header loop of `parse_query`, returning the headers in input order and
the unconsumed stream. -/
def parseHeaders (input : List Char) : Except ParseError (List HeaderField × List Char) :=
  parseHeadersF (input.length + 1) input

/-- `parse_query` from `main.rs` (lines 239-289): read the request line, split
it on whitespace, map the first token to a verb (never an error), fail without
a second token, otherwise take the second token verbatim as the path, run the
header loop, and wrap the unread remainder of the stream as the payload. -/
def parseQuery (input : List Char) : Except ParseError Request :=
  let p := readLine input
  let parts := wsSplit p.1
  match parts[1]? with
  | none => Except.error ParseError.invalidMessageLine
  | some tok =>
    match parseHeaders p.2 with
    | Except.error e => Except.error e
    | Except.ok (hs, body) =>
      Except.ok
        { verb := verbOf parts[0]?
          path := strBytes tok
          headers := hs
          body := some (Payload.ReadStream (strBytes body)) }

/-- Specification-side description of a well-formed header section, following
the spec's words: lines are read until the blank-line terminator `\r\n`; every
line before it is non-empty and splits as `name: value` on the single
colon-space separator; the headers are collected in input order and the rest
of the stream is left over. -/
inductive GoodHeaders : List Char → List HeaderField → List Char → Prop where
  | blank : ∀ input, (readLine input).1 = "\r\n".toList →
      GoodHeaders input [] (readLine input).2
  | cons : ∀ input n v hs body, (readLine input).1 ≠ [] →
      (readLine input).1 ≠ "\r\n".toList →
      splitOnceColonSpace (trimEnd (readLine input).1) = some (n, v) →
      GoodHeaders (readLine input).2 hs body →
      GoodHeaders input (⟨String.mk n, String.mk v⟩ :: hs) body

/-- One I/O event of the copy loop in `copy_bytes`. -/
inductive CopyEvent where
  | read (k : Nat) (chunk : List Nat)
  | write (chunk : List Nat)
  | flush
  deriving DecidableEq

/-- Fuel-indexed body of `copy_bytes` from `src/handlers.rs` (lines 91-107):
while bytes remain, allocate a buffer of `min(buf_size, remaining)` bytes,
`read_exact` into it (an error — modelled as `none` — if the stream is too
short), `write_all` it, and decrement `remaining` by the bytes read. Returns
the event trace and the final `remaining`. Fuel `len` suffices whenever
`buf_size ≥ 1`. -/
def copyBytesLoop : Nat → List Nat → Nat → Nat → Option (List CopyEvent × Nat)
  | _, _, 0, _ => some ([], 0)
  | 0, _, _ + 1, _ => none
  | fuel + 1, stream, r + 1, bufSize =>
    let k := min bufSize (r + 1)
    if k ≤ stream.length then
      match copyBytesLoop fuel (stream.drop k) (r + 1 - k) bufSize with
      | some (evs, fin) =>
        some (CopyEvent.read k (stream.take k) :: CopyEvent.write (stream.take k) :: evs, fin)
      | none => none
    else none

/-- `copy_bytes` from `src/handlers.rs`: run the loop, flush once after it,
and return `Ok(len - remaining)`. -/
def copy_bytes (stream : List Nat) (len bufSize : Nat) : Option (List CopyEvent × Nat) :=
  match copyBytesLoop len stream len bufSize with
  | some (evs, fin) => some (evs ++ [CopyEvent.flush], len - fin)
  | none => none

/-- The value of `COPY_BUFFER_DEFAULT_SIZE` in `src/handlers.rs`. -/
def COPY_BUFFER_DEFAULT_SIZE : Nat := 1024

/-- The chunk sequence the copy loop transfers: repeatedly take
`min(bufSize, remaining)` bytes from the stream. -/
def copyChunks : Nat → Nat → Nat → List Nat → List (List Nat)
  | _, 0, _, _ => []
  | 0, _ + 1, _, _ => []
  | fuel + 1, r + 1, bufSize, stream =>
    let k := min bufSize (r + 1)
    stream.take k :: copyChunks fuel (r + 1 - k) bufSize (stream.drop k)

/-- The read/write event trace corresponding to a chunk sequence: each chunk
is read in full and then written before the next read. -/
def chunkTrace (cs : List (List Nat)) : List CopyEvent :=
  cs.flatMap fun c => [CopyEvent.read c.length c, CopyEvent.write c]

/-! Helper lemmas about `readLine`. -/

theorem readLine_snd_le (l : List Char) : (readLine l).2.length ≤ l.length := by
  induction l with
  | nil => simp [readLine]
  | cons c cs ih =>
    simp only [readLine]
    by_cases h : c = '\n'
    · simp [h]
    · simp only [if_neg h]
      exact Nat.le_trans ih (Nat.le_succ _)

theorem readLine_fst_nil (l : List Char) : (readLine l).1 = [] ↔ l = [] := by
  cases l with
  | nil => simp [readLine]
  | cons c cs =>
    simp only [readLine]
    by_cases h : c = '\n' <;> simp [h]

theorem readLine_snd_lt (l : List Char) (h : l ≠ []) : (readLine l).2.length < l.length := by
  cases l with
  | nil => exact absurd rfl h
  | cons c cs =>
    simp only [readLine]
    by_cases hc : c = '\n'
    · simp [hc]
    · simp only [if_neg hc]
      exact Nat.lt_succ_of_le (readLine_snd_le cs)

/-! Helper lemmas about the fuel-indexed header loop: the fuel is irrelevant
as long as it exceeds the input length, which yields clean unfolding
equations for `parseHeaders`. -/

theorem parseHeadersF_congr : ∀ f1 f2 input, input.length < f1 → input.length < f2 →
    parseHeadersF f1 input = parseHeadersF f2 input := by
  intro f1
  induction f1 with
  | zero => intro f2 input h1 _; exact absurd h1 (Nat.not_lt_zero _)
  | succ a ih =>
    intro f2 input h1 h2
    cases f2 with
    | zero => exact absurd h2 (Nat.not_lt_zero _)
    | succ b =>
      simp only [parseHeadersF]
      by_cases hnil : (readLine input).1 = []
      · simp [hnil]
      · by_cases hblank : (readLine input).1 = ['\r', '\n']
        · simp [hnil, hblank]
        · simp only [if_neg hnil, if_neg hblank]
          cases hsp : splitOnceColonSpace (trimEnd (readLine input).1) with
          | none => rfl
          | some nv =>
            have hne : input ≠ [] := fun he => hnil ((readLine_fst_nil input).mpr he)
            have hlt := readLine_snd_lt input hne
            rw [ih b (readLine input).2 (by omega) (by omega)]

theorem parseHeaders_nil : parseHeaders [] = Except.error ParseError.unexpectedEof := rfl

theorem parseHeaders_eof (input : List Char) (h : (readLine input).1 = []) :
    parseHeaders input = Except.error ParseError.unexpectedEof := by
  have : input = [] := (readLine_fst_nil input).mp h
  subst this
  rfl

theorem parseHeaders_blank (input : List Char) (h : (readLine input).1 = ['\r', '\n']) :
    parseHeaders input = Except.ok ([], (readLine input).2) := by
  unfold parseHeaders
  simp only [parseHeadersF]
  rw [if_neg (by simp [h]), if_pos h]

theorem parseHeaders_invalid (input : List Char)
    (h0 : (readLine input).1 ≠ []) (h1 : (readLine input).1 ≠ ['\r', '\n'])
    (h2 : splitOnceColonSpace (trimEnd (readLine input).1) = none) :
    parseHeaders input = Except.error (ParseError.invalidHeader (trimEnd (readLine input).1)) := by
  unfold parseHeaders
  simp only [parseHeadersF]
  rw [if_neg h0, if_neg h1, h2]

theorem parseHeaders_cons (input : List Char) (n v : List Char)
    (h0 : (readLine input).1 ≠ []) (h1 : (readLine input).1 ≠ ['\r', '\n'])
    (h2 : splitOnceColonSpace (trimEnd (readLine input).1) = some (n, v)) :
    parseHeaders input = (parseHeaders (readLine input).2).map
      fun hb => (⟨String.mk n, String.mk v⟩ :: hb.1, hb.2) := by
  show parseHeadersF (input.length + 1) input = _
  simp only [parseHeadersF]
  rw [if_neg h0, if_neg h1, h2]
  dsimp only
  have hne : input ≠ [] := fun he => h0 ((readLine_fst_nil input).mpr he)
  have hlt := readLine_snd_lt input hne
  rw [parseHeadersF_congr input.length ((readLine input).2.length + 1) (readLine input).2
    (by omega) (by omega)]
  rfl

/-- Success characterization of the header loop against the spec-side
`GoodHeaders` predicate, forward direction (by strong induction on the
input length). -/
theorem parseHeaders_ok_to_good : ∀ N input hs body, input.length ≤ N →
    parseHeaders input = Except.ok (hs, body) → GoodHeaders input hs body := by
  intro N
  induction N with
  | zero =>
    intro input hs body hlen hok
    have : input = [] := List.eq_nil_of_length_eq_zero (Nat.le_zero.mp hlen)
    subst this
    rw [parseHeaders_nil] at hok
    exact absurd hok (by simp)
  | succ N ih =>
    intro input hs body hlen hok
    by_cases hnil : (readLine input).1 = []
    · rw [parseHeaders_eof input hnil] at hok
      exact absurd hok (by simp)
    · by_cases hblank : (readLine input).1 = ['\r', '\n']
      · rw [parseHeaders_blank input hblank] at hok
        simp only [Except.ok.injEq, Prod.mk.injEq] at hok
        obtain ⟨ha, hb2⟩ := hok
        subst ha
        subst hb2
        exact GoodHeaders.blank input hblank
      · cases hsp : splitOnceColonSpace (trimEnd (readLine input).1) with
        | none =>
          rw [parseHeaders_invalid input hnil hblank hsp] at hok
          exact absurd hok (by simp)
        | some nv =>
          obtain ⟨n, v⟩ := nv
          rw [parseHeaders_cons input n v hnil hblank hsp] at hok
          cases hrec : parseHeaders (readLine input).2 with
          | error e => rw [hrec] at hok; exact absurd hok (by simp [Except.map])
          | ok hb =>
            rw [hrec] at hok
            simp only [Except.map, Except.ok.injEq, Prod.mk.injEq] at hok
            obtain ⟨h1', h2'⟩ := hok
            subst h1'
            subst h2'
            have hne : input ≠ [] := fun he => hnil ((readLine_fst_nil input).mpr he)
            have hlt := readLine_snd_lt input hne
            have hgood := ih (readLine input).2 hb.1 hb.2 (by omega)
              (by rw [hrec])
            exact GoodHeaders.cons input n v hb.1 hb.2 hnil hblank hsp hgood

/-- Success characterization of the header loop, backward direction (by
induction on the derivation). -/
theorem good_to_parseHeaders_ok (input : List Char) (hs : List HeaderField) (body : List Char)
    (h : GoodHeaders input hs body) : parseHeaders input = Except.ok (hs, body) := by
  induction h with
  | blank input hb => exact parseHeaders_blank input hb
  | cons input n v hs body h0 h1 h2 _ ih =>
    rw [parseHeaders_cons input n v h0 h1 h2, ih]
    rfl

theorem verbOf_ne_any (o : Option (List Char)) : verbOf o ≠ HttpVerb.Any := by
  cases o with
  | none => simp [verbOf]
  | some t =>
    simp only [verbOf]
    split
    · simp
    · split <;> simp

/-! Helper lemmas about the copy loop. -/

theorem copyBytesLoop_eq : ∀ (fuel r bufSize : Nat) (stream : List Nat),
    r ≤ fuel → 1 ≤ bufSize → r ≤ stream.length →
    copyBytesLoop fuel stream r bufSize =
      some (chunkTrace (copyChunks fuel r bufSize stream), 0) := by
  intro fuel
  induction fuel with
  | zero =>
    intro r bufSize stream hf _ _
    have : r = 0 := Nat.le_zero.mp hf
    subst this
    rfl
  | succ fuel ih =>
    intro r bufSize stream hf hb hs
    cases r with
    | zero => rfl
    | succ r0 =>
      simp only [copyBytesLoop, copyChunks]
      generalize hkdef : min bufSize (r0 + 1) = k
      have hk1 : 1 ≤ k := hkdef ▸ Nat.le_min.mpr ⟨hb, Nat.succ_le_succ (Nat.zero_le _)⟩
      have hkr : k ≤ r0 + 1 := hkdef ▸ Nat.min_le_right _ _
      have hks : k ≤ stream.length := le_trans hkr hs
      rw [if_pos hks]
      rw [ih (r0 + 1 - k) bufSize (stream.drop k)
        (by omega) hb (by rw [List.length_drop]; omega)]
      simp only [chunkTrace, List.flatMap_cons]
      rw [List.length_take, inf_eq_left.mpr hks]
      rfl

theorem copyChunks_join : ∀ (fuel r bufSize : Nat) (stream : List Nat),
    r ≤ fuel → 1 ≤ bufSize → r ≤ stream.length →
    (copyChunks fuel r bufSize stream).flatten = stream.take r := by
  intro fuel
  induction fuel with
  | zero =>
    intro r bufSize stream hf _ _
    have : r = 0 := Nat.le_zero.mp hf
    subst this
    rfl
  | succ fuel ih =>
    intro r bufSize stream hf hb hs
    cases r with
    | zero => rfl
    | succ r0 =>
      simp only [copyChunks, List.flatten_cons]
      generalize hkdef : min bufSize (r0 + 1) = k
      have hk1 : 1 ≤ k := hkdef ▸ Nat.le_min.mpr ⟨hb, Nat.succ_le_succ (Nat.zero_le _)⟩
      have hkr : k ≤ r0 + 1 := hkdef ▸ Nat.min_le_right _ _
      rw [ih (r0 + 1 - k) bufSize (stream.drop k)
        (by omega) hb (by rw [List.length_drop]; omega)]
      rw [← List.take_add, Nat.add_sub_cancel' hkr]

theorem copyChunks_bounds : ∀ (fuel r bufSize : Nat) (stream : List Nat),
    1 ≤ bufSize → r ≤ stream.length →
    ∀ c ∈ copyChunks fuel r bufSize stream, 1 ≤ c.length ∧ c.length ≤ bufSize := by
  intro fuel
  induction fuel with
  | zero =>
    intro r bufSize stream _ _ c hc
    cases r with
    | zero => exact absurd hc (by simp [copyChunks])
    | succ r0 => exact absurd hc (by simp [copyChunks])
  | succ fuel ih =>
    intro r bufSize stream hb hs c hc
    cases r with
    | zero => exact absurd hc (by simp [copyChunks])
    | succ r0 =>
      simp only [copyChunks, List.mem_cons] at hc
      obtain ⟨k, hkdef⟩ : ∃ k, min bufSize (r0 + 1) = k := ⟨_, rfl⟩
      rw [hkdef] at hc
      have hk1 : 1 ≤ k := hkdef ▸ Nat.le_min.mpr ⟨hb, Nat.succ_le_succ (Nat.zero_le _)⟩
      have hkb : k ≤ bufSize := hkdef ▸ Nat.min_le_left _ _
      have hkr : k ≤ r0 + 1 := hkdef ▸ Nat.min_le_right _ _
      have hks : k ≤ stream.length := le_trans hkr hs
      cases hc with
      | inl hc =>
        subst hc
        rw [List.length_take, inf_eq_left.mpr hks]
        exact ⟨hk1, hkb⟩
      | inr hc =>
        exact ih (r0 + 1 - k) bufSize (stream.drop k)
          hb (by rw [List.length_drop]; omega) c hc

theorem chunkTrace_no_flush (cs : List (List Nat)) :
    ∀ e ∈ chunkTrace cs, e ≠ CopyEvent.flush := by
  intro e he
  induction cs with
  | nil => exact absurd he (by simp [chunkTrace])
  | cons c t ih =>
    simp only [chunkTrace, List.flatMap_cons, List.mem_append, List.mem_cons] at he
    rcases he with (h | h | h) | h
    · rw [h]; simp
    · rw [h]; simp
    · exact absurd h (by simp)
    · exact ih (by simpa [chunkTrace] using h)

/-! Helper lemmas about path components and route matching. -/

theorem pathEq_iff (a b : List Nat) : pathEq a b = true ↔ pathComponents a = pathComponents b := by
  simp [pathEq]

theorem pathStartsWith_iff (p base : List Nat) :
    pathStartsWith p base = true ↔ pathComponents base <+: pathComponents p := by
  simp [pathStartsWith, List.isPrefixOf_iff_prefix]

/-- `Route::matches` succeeds exactly when the verb condition holds and the
path condition holds component-wise, and then returns the byte length of the
route's path. -/
theorem matches_some_iff (r : Route) (q : Request) (n : Nat) :
    Route.matches r q = some n ↔
      ((r.verb = HttpVerb.Any ∨ q.verb = r.verb)
       ∧ (r.exact = true → pathComponents r.path = pathComponents q.path)
       ∧ (r.exact = false → pathComponents r.path <+: pathComponents q.path)
       ∧ n = r.path.length) := by
  unfold Route.matches
  by_cases hex : r.exact = true
  · rw [if_pos hex]
    have hex' : ¬ r.exact = false := by rw [hex]; simp
    constructor
    · intro hsome
      split at hsome
      next hC =>
        injection hsome with hn
        simp only [Bool.and_eq_true, Bool.or_eq_true, beq_iff_eq] at hC
        exact ⟨hC.1, fun _ => (pathEq_iff _ _).mp hC.2, fun hf => absurd hf hex', hn.symm⟩
      next => exact absurd hsome (by simp)
    · rintro ⟨hv, hexact, _, hn⟩
      have hC : (((r.verb == HttpVerb.Any) || (q.verb == r.verb))
          && pathEq r.path q.path) = true := by
        simp only [Bool.and_eq_true, Bool.or_eq_true, beq_iff_eq]
        exact ⟨hv, (pathEq_iff _ _).mpr (hexact hex)⟩
      rw [if_pos hC, hn]
  · rw [if_neg hex]
    have hex0 : r.exact = false := by revert hex; cases r.exact <;> simp
    constructor
    · intro hsome
      split at hsome
      next hC =>
        injection hsome with hn
        simp only [Bool.and_eq_true, Bool.or_eq_true, beq_iff_eq] at hC
        exact ⟨hC.1, fun ht => absurd ht hex, fun _ => (pathStartsWith_iff _ _).mp hC.2, hn.symm⟩
      next => exact absurd hsome (by simp)
    · rintro ⟨hv, _, hpref, hn⟩
      have hC : (((r.verb == HttpVerb.Any) || (q.verb == r.verb))
          && pathStartsWith q.path r.path) = true := by
        simp only [Bool.and_eq_true, Bool.or_eq_true, beq_iff_eq]
        exact ⟨hv, (pathStartsWith_iff _ _).mpr (hpref hex0)⟩
      rw [if_pos hC, hn]

theorem splitOnSlashAux_no_slash (s : List Nat) : ∀ acc, 47 ∉ s →
    splitOnSlashAux s acc = [acc.reverse ++ s] := by
  induction s with
  | nil => intro acc _; simp [splitOnSlashAux]
  | cons b t ih =>
    intro acc h
    have hb : b ≠ 47 := fun he => h (he ▸ List.mem_cons_self b t)
    have ht : 47 ∉ t := fun he => h (List.mem_cons_of_mem b he)
    simp only [splitOnSlashAux, if_neg hb]
    rw [ih (b :: acc) ht]
    simp

/-- Component decomposition of an echo request path `/echo/` ++ `s` for a
suffix `s` containing no slash. -/
theorem pathComponents_echo (s : List Nat) (h : 47 ∉ s) :
    pathComponents (bytesOf "/echo/" ++ s) =
      PathComponent.rootDir :: PathComponent.normal (bytesOf "echo") ::
        (([s].filter keepSeg).map segToComponent) := by
  have h1 : bytesOf "/echo/" ++ s = 47 :: (([101, 99, 104, 111, 47] : List Nat) ++ s) := rfl
  simp only [pathComponents, h1, splitOnSlash]
  rw [show splitOnSlashAux (47 :: (([101, 99, 104, 111, 47] : List Nat) ++ s)) [] =
      [] :: [101, 99, 104, 111] :: splitOnSlashAux s [] from by
    simp [splitOnSlashAux]]
  rw [splitOnSlashAux_no_slash s [] h]
  simp [keepSeg, segToComponent, bytesOf, strBytes, utf8Bytes]

theorem pathStartsWith_echo (s : List Nat) (h : 47 ∉ s) :
    pathStartsWith (bytesOf "/echo/" ++ s) (bytesOf "/echo/") = true := by
  unfold pathStartsWith
  rw [pathComponents_echo s h]
  rw [show pathComponents (bytesOf "/echo/") =
      [PathComponent.rootDir, PathComponent.normal (bytesOf "echo")] from by decide]
  simp [List.isPrefixOf]

/-! Claim theorems. -/

/-- C1: the verb condition of route matching should hold exactly when the
route's verb is `Any` or equals the request's verb, and a parsed request never
carries verb `Any`. `route.rs`'s `Route::matches` satisfies this (first
conjunct: an `Any` catch-all matches a `Get` request), but `main.rs`'s
`Route::matches` tests the request's verb against `Any` instead, so the
declared `Any` catch-all — commented "it matches anything" — matches nothing
(second conjunct); the parser indeed only produces `Get`, `Post` or `Unknown`
(third conjunct). -/
theorem c1_verb_condition :
    Route.matches ⟨HttpVerb.Any, [], false, RouteTarget.Static StatusCode.NotFound⟩
        ⟨HttpVerb.Get, bytesOf "/nope", [], none⟩ = some 0
    ∧ mainMatches ⟨HttpVerb.Any, [], false, RouteTarget.Static StatusCode.NotFound⟩
        ⟨HttpVerb.Get, bytesOf "/nope", [], none⟩ = none
    ∧ (∀ (input : List Char) (req : Request), parseQuery input = Except.ok req →
        req.verb ≠ HttpVerb.Any) := by
  refine ⟨by decide, by decide, ?_⟩
  intro input req hok
  simp only [parseQuery] at hok
  cases h1 : (wsSplit (readLine input).1)[1]? with
  | none => simp [h1] at hok
  | some tok =>
    simp only [h1] at hok
    cases h2 : parseHeaders (readLine input).2 with
    | error e => simp [h2] at hok
    | ok hb =>
      obtain ⟨hs, body⟩ := hb
      simp only [h2, Except.ok.injEq] at hok
      rw [← hok]
      exact verbOf_ne_any _

/-- C1 witness: a parsed request with an unrecognized method has verb
`Unknown`, not `Any`. -/
theorem c1_verb_condition_witness :
    (⟨HttpVerb.Unknown, bytesOf "/x", [], some (Payload.ReadStream [])⟩ : Request).verb
      ≠ HttpVerb.Any :=
  c1_verb_condition.2.2 ("PUT /x HTTP/1.1\r\n\r\n").toList
    ⟨HttpVerb.Unknown, bytesOf "/x", [], some (Payload.ReadStream [])⟩ (by rfl)

/-- C2: `Request::content_length` maps the `Content-Length` header value
through `parse::<usize>().unwrap()`; on the non-numeric value "abc" this
`unwrap` panics (modelled as `Except.error`) instead of failing gracefully;
a numeric value parses and an absent header yields `none`. -/
theorem c2_content_length_panics :
    Request.content_length
        ⟨HttpVerb.Post, bytesOf "/files/a", [⟨"Content-Length", "abc"⟩], none⟩
      = Except.error "panicked: called unwrap on an Err value from str::parse"
    ∧ Request.content_length
        ⟨HttpVerb.Post, bytesOf "/files/a", [⟨"Content-Length", "42"⟩], none⟩
      = Except.ok (some 42)
    ∧ Request.content_length ⟨HttpVerb.Post, bytesOf "/files/a", [], none⟩
      = Except.ok none := by
  refine ⟨rfl, rfl, rfl⟩

/-- C3 counterexample: for the non-exact route path `/echo/` and request path
`/echo`, `Route::matches` succeeds (returning 6) although `/echo` does not
start with `/echo/` as a literal byte prefix — the code's path condition is
Rust `Path` component comparison, not a byte-level prefix test. -/
theorem c3_counterexample :
    Route.matches ⟨HttpVerb.Any, bytesOf "/echo/", false, RouteTarget.Static StatusCode.NotFound⟩
        ⟨HttpVerb.Get, bytesOf "/echo", [], none⟩ = some 6
    ∧ (bytesOf "/echo/").isPrefixOf (bytesOf "/echo") = false := by
  exact ⟨by decide, by decide⟩

/-- C3 amended: the path condition is component-based (Rust `Path`
semantics): a non-exact route matches exactly when its path's components are
a component-wise prefix of the request path's components, an exact route
exactly when the component sequences are equal; the returned length is the
byte length of the route's path. -/
theorem c3_path_condition_componentwise (r : Route) (q : Request) (n : Nat) :
    Route.matches r q = some n ↔
      ((r.verb = HttpVerb.Any ∨ q.verb = r.verb)
       ∧ (r.exact = true → pathComponents r.path = pathComponents q.path)
       ∧ (r.exact = false → pathComponents r.path <+: pathComponents q.path)
       ∧ n = r.path.length) :=
  matches_some_iff r q n

/-- C3 witness: the `/files/` prefix route matches `/files/a.txt` with
matched length 7. -/
theorem c3_witness :
    Route.matches ⟨HttpVerb.Get, bytesOf "/files/", false, RouteTarget.Static StatusCode.HttpOk⟩
        ⟨HttpVerb.Get, bytesOf "/files/a.txt", [], none⟩ = some 7 :=
  (c3_path_condition_componentwise
      ⟨HttpVerb.Get, bytesOf "/files/", false, RouteTarget.Static StatusCode.HttpOk⟩
      ⟨HttpVerb.Get, bytesOf "/files/a.txt", [], none⟩ 7).mpr
    ⟨Or.inr rfl, fun h => Bool.noConfusion h,
      fun _ => ⟨[PathComponent.normal (bytesOf "a.txt")], by decide⟩, rfl⟩

/-- C4: when a route matches, `matched_length` is the byte length of the
route's path, and whenever that length is within the request path the handler
receives the request with exactly that many leading path bytes removed and
verb, headers and body unchanged (second conjunct); but on the matching pair
route `/echo/` / request path `/echo` the length 6 exceeds the 5-byte path,
`split_at` panics in `strip_path_prefix` and no handler is invoked (first
conjunct). -/
theorem c4_matched_length_and_strip :
    (Route.matches ⟨HttpVerb.Get, bytesOf "/echo/", false, RouteTarget.Static StatusCode.HttpOk⟩
        ⟨HttpVerb.Get, bytesOf "/echo", [], none⟩ = some 6
      ∧ Request.strip_path_pref ⟨HttpVerb.Get, bytesOf "/echo", [], none⟩ 6 = none)
    ∧ (∀ (r : Route) (q : Request) (n : Nat), Route.matches r q = some n →
        n = r.path.length
        ∧ (n ≤ q.path.length →
            Request.strip_path_pref q n = some ⟨q.verb, q.path.drop n, q.headers, q.body⟩)) := by
  refine ⟨⟨by decide, by decide⟩, ?_⟩
  intro r q n hm
  have h := (matches_some_iff r q n).mp hm
  refine ⟨h.2.2.2, fun hle => ?_⟩
  unfold Request.strip_path_pref
  rw [if_pos hle]

/-- C4 witness: stripping the matched prefix of `/echo/hi` yields `hi`. -/
theorem c4_witness :
    Request.strip_path_pref ⟨HttpVerb.Get, bytesOf "/echo/hi", [], none⟩ 6 =
      some ⟨HttpVerb.Get, bytesOf "hi", [], none⟩ :=
  (c4_matched_length_and_strip.2
    ⟨HttpVerb.Get, bytesOf "/echo/", false, RouteTarget.Static StatusCode.HttpOk⟩
    ⟨HttpVerb.Get, bytesOf "/echo/hi", [], none⟩ 6 (by decide)).2 (by decide)

/-- C10: `Route::matches` can return a matched length larger than the byte
length of the request's path: the `/files/` prefix route matches request path
`/files` (component comparison ignores the trailing slash) with length 7,
while the path has only 6 bytes, so the `split_at(7)` in
`strip_path_prefix` is out of bounds and panics. -/
theorem c10_matched_length_exceeds_path :
    Route.matches ⟨HttpVerb.Get, bytesOf "/files/", false, RouteTarget.Static StatusCode.HttpOk⟩
        ⟨HttpVerb.Get, bytesOf "/files", [], none⟩ = some 7
    ∧ (bytesOf "/files").length = 6
    ∧ Request.strip_path_pref ⟨HttpVerb.Get, bytesOf "/files", [], none⟩ 7 = none := by
  refine ⟨by decide, by decide, by decide⟩

/-- C5: the dispatch loop selects at most one route (it returns at most one
`(route, length)` pair and breaks): whatever it returns is an entry of the
table whose `matches` succeeds while `matches` fails on every earlier entry
(first conjunct), and conversely the first entry whose `matches` succeeds is
the one returned (second conjunct). -/
theorem c5_first_match_wins (routes : List Route) (q : Request) :
    (∀ r n, routeRequest routes q = some (r, n) →
      ∃ i, ∃ h : i < routes.length, routes.get ⟨i, h⟩ = r
        ∧ Route.matches r q = some n
        ∧ ∀ j (hj : j < routes.length), j < i → Route.matches (routes.get ⟨j, hj⟩) q = none)
    ∧ (∀ i (h : i < routes.length) n, Route.matches (routes.get ⟨i, h⟩) q = some n →
        (∀ j (hj : j < routes.length), j < i → Route.matches (routes.get ⟨j, hj⟩) q = none) →
        routeRequest routes q = some (routes.get ⟨i, h⟩, n)) := by
  induction routes with
  | nil =>
    constructor
    · intro r n hr
      exact absurd hr (by simp [routeRequest])
    · intro i h
      exact absurd h (by simp)
  | cons r0 rs ih =>
    constructor
    · intro r n hr
      simp only [routeRequest] at hr
      cases hm : Route.matches r0 q with
      | some m =>
        rw [hm] at hr
        simp only [Option.some.injEq, Prod.mk.injEq] at hr
        obtain ⟨hr1, hr2⟩ := hr
        subst hr1
        subst hr2
        exact ⟨0, Nat.succ_pos _, rfl, hm, fun j hj hlt => absurd hlt (Nat.not_lt_zero _)⟩
      | none =>
        rw [hm] at hr
        simp only at hr
        obtain ⟨i, hi, hget, hmt, hearlier⟩ := ih.1 r n hr
        refine ⟨i + 1, Nat.succ_lt_succ hi, hget, hmt, ?_⟩
        intro j hj hlt
        cases j with
        | zero => exact hm
        | succ j0 =>
          exact hearlier j0 (Nat.lt_of_succ_lt_succ hj) (Nat.lt_of_succ_lt_succ hlt)
    · intro i h n hmt hearlier
      cases i with
      | zero =>
        simp only [routeRequest]
        rw [show Route.matches r0 q = some n from hmt]
        rfl
      | succ i0 =>
        have h0 : Route.matches r0 q = none :=
          hearlier 0 (Nat.succ_pos _) (Nat.succ_pos _)
        simp only [routeRequest]
        rw [h0]
        exact ih.2 i0 (Nat.lt_of_succ_lt_succ h) n hmt
          (fun j hj hlt => hearlier (j + 1) (Nat.succ_lt_succ hj) (Nat.succ_lt_succ hlt))

/-- C5 witness (the spec's own example table): `GET /echo/hi` selects the
second entry of `[GET / exact, GET /echo/, Any catch-all]`, not the
catch-all. -/
theorem c5_witness :
    routeRequest
      [⟨HttpVerb.Get, bytesOf "/", true, RouteTarget.Static StatusCode.HttpOk⟩,
       ⟨HttpVerb.Get, bytesOf "/echo/", false, RouteTarget.Static StatusCode.HttpOk⟩,
       ⟨HttpVerb.Any, [], false, RouteTarget.Static StatusCode.NotFound⟩]
      ⟨HttpVerb.Get, bytesOf "/echo/hi", [], none⟩ =
      some (⟨HttpVerb.Get, bytesOf "/echo/", false, RouteTarget.Static StatusCode.HttpOk⟩, 6) := by
  have h := (c5_first_match_wins
    [⟨HttpVerb.Get, bytesOf "/", true, RouteTarget.Static StatusCode.HttpOk⟩,
     ⟨HttpVerb.Get, bytesOf "/echo/", false, RouteTarget.Static StatusCode.HttpOk⟩,
     ⟨HttpVerb.Any, [], false, RouteTarget.Static StatusCode.NotFound⟩]
    ⟨HttpVerb.Get, bytesOf "/echo/hi", [], none⟩).2 1 (by decide) 6 (by decide)
    (fun j hj hlt => by
      have hj0 : j = 0 := by omega
      subst hj0
      have hg : ([⟨HttpVerb.Get, bytesOf "/", true, RouteTarget.Static StatusCode.HttpOk⟩,
          ⟨HttpVerb.Get, bytesOf "/echo/", false, RouteTarget.Static StatusCode.HttpOk⟩,
          ⟨HttpVerb.Any, [], false, RouteTarget.Static StatusCode.NotFound⟩] : List Route).get
            ⟨0, hj⟩ =
          ⟨HttpVerb.Get, bytesOf "/", true, RouteTarget.Static StatusCode.HttpOk⟩ := rfl
      rw [hg]
      decide)
  exact h

/-- C6: with a positive buffer size and a stream long enough, `copy_bytes`
terminates and returns `Ok(len)` with the trace "read a chunk, write it,
repeat, then one final flush"; the chunks are read in full before being
written, each has between 1 and `buf_size` bytes (and exactly
`min(buf_size, remaining)` by construction of `copyChunks`), their
concatenation is exactly the first `len` bytes of the stream in order, and no
flush happens inside the loop. -/
theorem c6_copy_bytes_loop (len bufSize : Nat) (stream : List Nat)
    (hb : 1 ≤ bufSize) (hs : len ≤ stream.length) :
    copy_bytes stream len bufSize =
      some (chunkTrace (copyChunks len len bufSize stream) ++ [CopyEvent.flush], len)
    ∧ (copyChunks len len bufSize stream).flatten = stream.take len
    ∧ (∀ c ∈ copyChunks len len bufSize stream, 1 ≤ c.length ∧ c.length ≤ bufSize)
    ∧ (∀ e ∈ chunkTrace (copyChunks len len bufSize stream), e ≠ CopyEvent.flush) := by
  refine ⟨?_, copyChunks_join len len bufSize stream (le_refl _) hb hs,
    copyChunks_bounds len len bufSize stream hb hs, chunkTrace_no_flush _⟩
  unfold copy_bytes
  rw [copyBytesLoop_eq len len bufSize stream (le_refl _) hb hs]
  rfl

/-- C6 witness: copying 5 bytes of an 11-byte stream with a 2-byte buffer. -/
theorem c6_witness :
    copy_bytes (bytesOf "hello world") 5 2 =
      some (chunkTrace (copyChunks 5 5 2 (bytesOf "hello world")) ++ [CopyEvent.flush], 5) :=
  (c6_copy_bytes_loop 5 2 (bytesOf "hello world") (by decide) (by decide)).1

/-- C7: `parse_query` fails with the message-line error exactly when the first
line has no second whitespace token (first conjunct); with a second token the
result is the header loop's result, the token taken verbatim as the path and
the first token mapped through `verbOf` (second conjunct) — so an unknown
method is not by itself an error; `GET`/`POST` map to their verbs and
everything else to `Unknown` (third conjunct); the header loop succeeds
exactly on a well-formed header section, with the headers in input order
(fourth conjunct); and end-of-stream before the blank line is a failure
distinct from a malformed header line (fifth conjunct). -/
theorem c7_parse_query_characterization :
    (∀ input : List Char, (wsSplit (readLine input).1)[1]? = none →
      parseQuery input = Except.error ParseError.invalidMessageLine)
    ∧ (∀ (input tok : List Char), (wsSplit (readLine input).1)[1]? = some tok →
        parseQuery input = (parseHeaders (readLine input).2).map
          fun hb => ⟨verbOf (wsSplit (readLine input).1)[0]?, strBytes tok, hb.1,
            some (Payload.ReadStream (strBytes hb.2))⟩)
    ∧ (verbOf (some "GET".toList) = HttpVerb.Get
       ∧ verbOf (some "POST".toList) = HttpVerb.Post
       ∧ ∀ t, t ≠ "GET".toList → t ≠ "POST".toList → verbOf (some t) = HttpVerb.Unknown)
    ∧ (∀ (input : List Char) (hs : List HeaderField) (body : List Char),
        parseHeaders input = Except.ok (hs, body) ↔ GoodHeaders input hs body)
    ∧ (parseHeaders [] = Except.error ParseError.unexpectedEof
       ∧ (∀ input : List Char, (readLine input).1 ≠ [] →
            (readLine input).1 ≠ "\r\n".toList →
            splitOnceColonSpace (trimEnd (readLine input).1) = none →
            parseHeaders input = Except.error (ParseError.invalidHeader (trimEnd (readLine input).1)))
       ∧ ∀ l, ParseError.unexpectedEof ≠ ParseError.invalidHeader l) := by
  refine ⟨?_, ?_, ⟨rfl, rfl, ?_⟩, ?_, ⟨parseHeaders_nil, ?_, ?_⟩⟩
  · intro input h
    simp only [parseQuery]
    rw [h]
  · intro input tok h
    simp only [parseQuery]
    rw [h]
    cases hph : parseHeaders (readLine input).2 with
    | error e => rfl
    | ok hb =>
      obtain ⟨hs, body⟩ := hb
      rfl
  · intro t h1 h2
    show (if t = "GET".toList then HttpVerb.Get
      else if t = "POST".toList then HttpVerb.Post else HttpVerb.Unknown) = HttpVerb.Unknown
    rw [if_neg h1, if_neg h2]
  · intro input hs body
    exact ⟨fun h => parseHeaders_ok_to_good input.length input hs body (le_refl _) h,
      good_to_parseHeaders_ok input hs body⟩
  · intro input h0 h1 h2
    exact parseHeaders_invalid input h0 h1 h2
  · intro l
    simp

/-- C7 witness: a well-formed request parses to the expected request value. -/
theorem c7_witness :
    parseQuery ("GET /a HTTP/1.1\r\nHost: x\r\n\r\nrest").toList =
      Except.ok ⟨HttpVerb.Get, bytesOf "/a", [⟨"Host", "x"⟩],
        some (Payload.ReadStream (bytesOf "rest"))⟩ := by
  have h := c7_parse_query_characterization.2.1 ("GET /a HTTP/1.1\r\nHost: x\r\n\r\nrest").toList
    "/a".toList (by rfl)
  rw [h]
  rfl

/-- C8: for any suffix `s` with no slash byte and any request headers
negotiating no gzip coding, `GET /echo/<s>` matches the echo route with
length 6, the handler receives exactly the path `s` (headers and body
unchanged), and `handle_echo` returns status 200 (`HttpOk`) with a
`Content-Type: text/plain` header, body exactly `s`, and a `Content-Length`
header equal to `len(s)` emitted only when `s` is non-empty. -/
theorem c8_echo_roundtrip (s : List Nat) (hs2 : List HeaderField)
    (gz : List Nat → List Nat) (cfg : Configuration)
    (hslash : 47 ∉ s) (hgz : negotiates_gzip hs2 = false) :
    Route.matches ⟨HttpVerb.Get, bytesOf "/echo/", false, RouteTarget.Dynamic (handle_echo gz)⟩
        ⟨HttpVerb.Get, bytesOf "/echo/" ++ s, hs2, none⟩ = some 6
    ∧ Request.strip_path_pref ⟨HttpVerb.Get, bytesOf "/echo/" ++ s, hs2, none⟩ 6 =
        some ⟨HttpVerb.Get, s, hs2, none⟩
    ∧ handle_echo gz cfg ⟨HttpVerb.Get, s, hs2, none⟩ =
        Except.ok ⟨StatusCode.HttpOk,
          ⟨"Content-Type", "text/plain"⟩ ::
            (if s.length > 0 then [⟨"Content-Length", toString s.length⟩] else []),
          some (Payload.Simple [s])⟩
    ∧ (statusNumber StatusCode.HttpOk).1 = 200 := by
  refine ⟨?_, ?_, ?_, rfl⟩
  · unfold Route.matches
    rw [if_pos]
    · rfl
    · simp only [Bool.and_eq_true]
      exact ⟨by decide, pathStartsWith_echo s hslash⟩
  · have h6 : (bytesOf "/echo/").length = 6 := rfl
    have hle : 6 ≤ (bytesOf "/echo/" ++ s).length := by
      rw [List.length_append]
      omega
    have hd : (bytesOf "/echo/" ++ s).drop 6 = s := by
      rw [← h6, List.drop_left]
    simp only [Request.strip_path_pref]
    rw [if_pos hle, hd]
  · unfold handle_echo
    rw [show Request.wants_gzip_encoding ⟨HttpVerb.Get, s, hs2, none⟩ = false from hgz]
    rfl

/-- C8 witness: `GET /echo/hi` with no negotiated coding. -/
theorem c8_witness :
    Route.matches ⟨HttpVerb.Get, bytesOf "/echo/", false, RouteTarget.Dynamic (handle_echo id)⟩
        ⟨HttpVerb.Get, bytesOf "/echo/" ++ bytesOf "hi", [], none⟩ = some 6
    ∧ Request.strip_path_pref ⟨HttpVerb.Get, bytesOf "/echo/" ++ bytesOf "hi", [], none⟩ 6 =
        some ⟨HttpVerb.Get, bytesOf "hi", [], none⟩
    ∧ handle_echo id ⟨none⟩ ⟨HttpVerb.Get, bytesOf "hi", [], none⟩ =
        Except.ok ⟨StatusCode.HttpOk,
          ⟨"Content-Type", "text/plain"⟩ ::
            (if (bytesOf "hi").length > 0
              then [⟨"Content-Length", toString (bytesOf "hi").length⟩] else []),
          some (Payload.Simple [bytesOf "hi"])⟩
    ∧ (statusNumber StatusCode.HttpOk).1 = 200 :=
  c8_echo_roundtrip (bytesOf "hi") [] id ⟨none⟩ (by decide) rfl

/-- C9 counterexample: with no `User-Agent` header the handler returns an
`Err` — the connection handler propagates it and no response (of any status,
400-class included) is produced; and with an empty `User-Agent` value the
response carries no `Content-Length` header at all (rather than one equal to
0). -/
theorem c9_counterexample :
    handle_user_agent ⟨none⟩ ⟨HttpVerb.Get, bytesOf "/user-agent", [⟨"Host", "x"⟩], none⟩
      = Except.error "Expected User-Agent header, but not found"
    ∧ handle_user_agent ⟨none⟩ ⟨HttpVerb.Get, bytesOf "/user-agent", [⟨"User-Agent", ""⟩], none⟩
      = Except.ok ⟨StatusCode.HttpOk, [⟨"Content-Type", "text/plain"⟩],
          some (Payload.Simple [[]])⟩
    ∧ ([⟨"Content-Type", "text/plain"⟩] : List HeaderField).all
        (fun hf => hf.name != "Content-Length") = true := by
  refine ⟨rfl, rfl, rfl⟩

/-- C9 amended: when a `User-Agent` header with value `v` is present,
`handle_user_agent` returns 200 with body exactly the bytes of `v` and a
`Content-Length` equal to its byte length emitted only when `v` is non-empty;
when it is absent the handler fails with an error, and the dispatch of
`GET /user-agent` then ends in `handlerError` — the connection closes without
any response being written (no 200, but no 400-class response either). -/
theorem c9_user_agent_behavior (cfg : Configuration) (q : Request) :
    (∀ v, Request.get_header q "User-Agent" = some v →
      handle_user_agent cfg q = Except.ok ⟨StatusCode.HttpOk,
        ⟨"Content-Type", "text/plain"⟩ ::
          (if (strBytes v.toList).length > 0
            then [⟨"Content-Length", toString (strBytes v.toList).length⟩] else []),
        some (Payload.Simple [strBytes v.toList])⟩)
    ∧ (Request.get_header q "User-Agent" = none →
        handle_user_agent cfg q = Except.error "Expected User-Agent header, but not found")
    ∧ (∀ hs : List HeaderField, findHeader hs "User-Agent" = none →
        serveParsed
          [⟨HttpVerb.Get, bytesOf "/user-agent", true, RouteTarget.Dynamic handle_user_agent⟩]
          cfg ⟨HttpVerb.Get, bytesOf "/user-agent", hs, none⟩ =
          ServeOutcome.handlerError "Expected User-Agent header, but not found") := by
  refine ⟨?_, ?_, ?_⟩
  · intro v hv
    unfold handle_user_agent
    rw [show Request.get_header q "User-Agent" = some v from hv]
    rfl
  · intro hv
    unfold handle_user_agent
    rw [show Request.get_header q "User-Agent" = none from hv]
  · intro hs hna
    have hm : Route.matches
        ⟨HttpVerb.Get, bytesOf "/user-agent", true, RouteTarget.Dynamic handle_user_agent⟩
        ⟨HttpVerb.Get, bytesOf "/user-agent", hs, none⟩ = some 11 := by
      unfold Route.matches
      rw [if_pos]
      · rfl
      · simp [pathEq]
    have hstrip : Request.strip_path_pref ⟨HttpVerb.Get, bytesOf "/user-agent", hs, none⟩ 11 =
        some ⟨HttpVerb.Get, [], hs, none⟩ := by
      simp only [Request.strip_path_pref]
      rw [if_pos (show (11 : Nat) ≤ (bytesOf "/user-agent").length by decide)]
      rfl
    have hh : handle_user_agent cfg ⟨HttpVerb.Get, [], hs, none⟩ =
        Except.error "Expected User-Agent header, but not found" := by
      unfold handle_user_agent
      rw [show Request.get_header ⟨HttpVerb.Get, [], hs, none⟩ "User-Agent" = none from hna]
    simp only [serveParsed, routeRequest]
    rw [hm]
    simp only
    rw [hstrip]
    simp only
    rw [show RouteTarget.invoke (RouteTarget.Dynamic handle_user_agent) cfg
        ⟨HttpVerb.Get, [], hs, none⟩ =
      handle_user_agent cfg ⟨HttpVerb.Get, [], hs, none⟩ from rfl, hh]

/-- C9 witness: the spec's example, `User-Agent: foo/1.0`. -/
theorem c9_witness :
    handle_user_agent ⟨none⟩ ⟨HttpVerb.Get, [], [⟨"User-Agent", "foo/1.0"⟩], none⟩
      = Except.ok ⟨StatusCode.HttpOk,
          ⟨"Content-Type", "text/plain"⟩ ::
            (if (strBytes "foo/1.0".toList).length > 0
              then [⟨"Content-Length", toString (strBytes "foo/1.0".toList).length⟩] else []),
          some (Payload.Simple [strBytes "foo/1.0".toList])⟩ :=
  (c9_user_agent_behavior ⟨none⟩ ⟨HttpVerb.Get, [], [⟨"User-Agent", "foo/1.0"⟩], none⟩).1
    "foo/1.0" (by rfl)

end HttpSrv
